import Mathlib

/-!
Verification development for the cocktail-suggestion ingestion and retrieval
pipeline (src/data_processor.py, src/database_setup.py, src/app.py).

The Python code is shallowly embedded: rows are explicit data, the pandas
string pipeline of clean_data is translated to pure functions on strings,
ast.literal_eval is passed in as an abstract parse function
(with a concrete executable parser, literalEvalList, restricted to the
double-quoted list literals used in concrete inputs), and the stateful
store_cocktails / process_and_store procedures become functions from an
injected failure point and a starting database state to an outcome
consisting of the final database state, the trace of pipeline events, and
the Python-level result (normal return or uncaught exception).
-/

/-! ## Whitespace machinery

Models the regex replacement of runs of whitespace by a single space in
clean_data (line 70 of data_processor.py) and the Python str.strip used
throughout.  Whitespace is the six ASCII whitespace characters matched by
both the regex class and str.strip on this data. -/

/-- The six ASCII whitespace characters stripped by Python str.strip and
matched by the regex whitespace class. -/
def isWS (c : Char) : Bool :=
  c == ' ' || c == '\t' || c == '\n' || c == '\r' || c == Char.ofNat 11 || c == Char.ofNat 12

/-- Replace every maximal run of whitespace characters by a single space,
as the regex replacement on line 70 of data_processor.py does. -/
def collapseWS : List Char → List Char
  | [] => []
  | [c] => if isWS c then [' '] else [c]
  | a :: b :: rest =>
    if isWS a && isWS b then collapseWS (b :: rest)
    else (if isWS a then ' ' else a) :: collapseWS (b :: rest)

/-- Remove trailing whitespace characters. -/
def rstripWS : List Char → List Char
  | [] => []
  | c :: rest =>
    match rstripWS rest with
    | [] => if isWS c then [] else [c]
    | r => c :: r

/-- Remove leading and trailing whitespace characters, as Python str.strip. -/
def stripWS (l : List Char) : List Char :=
  rstripWS (l.dropWhile isWS)

/-- Python str.strip on a string value. -/
def pyStrip (s : String) : String :=
  ⟨stripWS s.data⟩

/-- The cleaning applied to combined_text on line 70 of data_processor.py:
collapse every whitespace run to one space, then strip. -/
def cleanWS (s : String) : String :=
  ⟨stripWS (collapseWS s.data)⟩

/-- Python startswith applied with the list-literal delimiter, as on
lines 87, 137 and 146 of data_processor.py. -/
def startsWithBracket (s : String) : Bool :=
  match s.data with
  | c :: _ => c == '['
  | [] => false

/-- No two adjacent whitespace characters occur in the list. -/
def noAdjWS : List Char → Bool
  | a :: b :: rest => !(isWS a && isWS b) && noAdjWS (b :: rest)
  | _ => true

/-- The last element of a list, if any. -/
def lastElem {α : Type} : List α → Option α
  | [] => none
  | [a] => some a
  | _ :: b :: rest => lastElem (b :: rest)

/-! ## A concrete model of ast.literal_eval on list literals

Used to instantiate the abstract parse argument in witnesses and
counterexamples.  It accepts exactly a bracketed, comma-separated sequence
of double-quoted string literals, which is the concrete input format used
in those theorems; on anything else it returns none, the model of
ast.literal_eval raising. -/

/-- Scan characters until the closing quote; none when the quote never closes. -/
def takeUntilQuote (q : Char) : List Char → Option (List Char × List Char)
  | [] => none
  | c :: rest =>
    if c == q then some ([], rest)
    else
      match takeUntilQuote q rest with
      | some (s, r) => some (c :: s, r)
      | none => none

/-- Parse one double-quoted string literal. -/
def parseQuoted : List Char → Option (String × List Char)
  | c :: rest =>
    if c == '"' then
      match takeUntilQuote '"' rest with
      | some (s, r) => some (⟨s⟩, r)
      | none => none
    else none
  | [] => none

/-- Parse a nonempty comma-separated sequence of string literals followed by
the closing bracket. -/
def parseItemList : Nat → List Char → Option (List String)
  | 0, _ => none
  | fuel + 1, cs =>
    match parseQuoted (cs.dropWhile isWS) with
    | none => none
    | some (item, rest) =>
      match rest.dropWhile isWS with
      | ',' :: rest2 =>
        match parseItemList fuel rest2 with
        | some items => some (item :: items)
        | none => none
      | ']' :: rest2 => if (rest2.dropWhile isWS).isEmpty then some [item] else none
      | _ => none

/-- Concrete model of ast.literal_eval restricted to list literals of
double-quoted strings; none models the call raising. -/
def literalEvalList (s : String) : Option (List String) :=
  match s.data.dropWhile isWS with
  | '[' :: rest =>
    match rest.dropWhile isWS with
    | ']' :: rest2 => if (rest2.dropWhile isWS).isEmpty then some [] else none
    | _ => parseItemList (s.data.length + 1) rest
  | _ => none

/-! ## The source-row data model

One raw corpus entry in either of the two shapes handled by
data_processor.py: the new flat shape with textual list literals, or the
legacy numbered-slot shape.  All cells are strings (clean_data fills
missing values with the empty string); absent legacy slot columns are
modelled by the list of slot values running out, matching row.get
returning None. -/

inductive Row
  | newShape (name category alcoholic glassType instructions ingredients ingredientMeasures : String)
  | legacy (strDrink strCategory strAlcoholic strGlass strInstructions : String)
      (strIngredient strMeasure : List String)
deriving DecidableEq

/-- Column auto-detection for the drink name (name if present, else strDrink). -/
def rowName : Row → String
  | Row.newShape n _ _ _ _ _ _ => n
  | Row.legacy d _ _ _ _ _ _ => d

/-- Column auto-detection for the category. -/
def rowCategory : Row → String
  | Row.newShape _ c _ _ _ _ _ => c
  | Row.legacy _ c _ _ _ _ _ => c

/-- Column auto-detection for the alcoholic type. -/
def rowAlcoholic : Row → String
  | Row.newShape _ _ a _ _ _ _ => a
  | Row.legacy _ _ a _ _ _ _ => a

/-- Column auto-detection for the glass. -/
def rowGlass : Row → String
  | Row.newShape _ _ _ g _ _ _ => g
  | Row.legacy _ _ _ g _ _ _ => g

/-- Column auto-detection for the instructions. -/
def rowInstructions : Row → String
  | Row.newShape _ _ _ _ i _ _ => i
  | Row.legacy _ _ _ _ i _ _ => i

/-- The raw concatenation built for combined_text by clean_data
(lines 44 to 67 of data_processor.py): each present field followed by one
space, ingredients as the raw field for the new shape and as every
numbered slot in order for the legacy shape. -/
def rawCombined : Row → String
  | Row.newShape n c a g ins ingr _ =>
    n ++ " " ++ c ++ " " ++ a ++ " " ++ g ++ " " ++ ingr ++ " " ++ ins ++ " "
  | Row.legacy d c a g ins ingrs _ =>
    d ++ " " ++ c ++ " " ++ a ++ " " ++ g ++ " " ++
      String.join (ingrs.map (fun s => s ++ " ")) ++ ins ++ " "

/-- The combined_text column value of a row: the raw concatenation with
whitespace runs collapsed and the ends stripped (line 70 of
data_processor.py). -/
def combined_text (r : Row) : String :=
  cleanWS (rawCombined r)

/-! ## The record normalizer: get_ingredents_list

Lines 76 to 110 of data_processor.py.  The abstract argument parse models
ast.literal_eval: some for a successful parse, none for the call raising.
The items list is the intermediate Python list; the function joins it with
a comma and a space. -/

/-- The filter applied to one parsed new-shape ingredient (line 90 of
data_processor.py): keep it stripped when it is truthy, strips to
something nonempty, and does not strip to the sentinel None token. -/
def okNew (s : String) : Option String :=
  if s ≠ "" ∧ pyStrip s ≠ "" ∧ pyStrip s ≠ "None" then some (pyStrip s) else none

/-- The filter applied to one legacy slot value (line 107 of
data_processor.py): the slot must exist, be truthy, strip to something
nonempty, and not strip to the sentinel nan token. -/
def okLegacy (o : Option String) : Option String :=
  match o with
  | none => none
  | some s => if s ≠ "" ∧ pyStrip s ≠ "" ∧ pyStrip s ≠ "nan" then some (pyStrip s) else none

/-- The intermediate ingredients list built by get_ingredents_list.  For a
new-shape row with a truthy ingredients field: parse it as a literal when
it starts with the bracket, keeping the filtered stripped elements; treat
it as a single scalar otherwise; on a parse failure fall back to the
stripped raw field.  A row without a truthy ingredients field takes the
legacy loop over the fifteen numbered slots. -/
def get_ingredents_list_items (parse : String → Option (List String)) : Row → List String
  | Row.newShape _ _ _ _ _ ingr _ =>
    if ingr ≠ "" then
      if startsWithBracket ingr then
        match parse ingr with
        | some l => l.filterMap okNew
        | none => if pyStrip ingr ≠ "" then [pyStrip ingr] else []
      else if pyStrip ingr ≠ "" then [pyStrip ingr] else []
    else []
  | Row.legacy _ _ _ _ _ ingrs _ =>
    (List.range 15).filterMap (fun i => okLegacy (ingrs.get? i))

/-- get_ingredents_list: the items joined as a comma-separated string
(line 110 of data_processor.py). -/
def get_ingredents_list (parse : String → Option (List String)) (r : Row) : String :=
  String.intercalate ", " (get_ingredents_list_items parse r)

/-! ## The text composer: create_recipe_text

Lines 112 to 174 of data_processor.py. -/

/-- The header part of the recipe (lines 120 to 128 of data_processor.py),
with the instructions line present only when the field is truthy. -/
def recipeHeader (r : Row) : String :=
  "\nDrink: " ++ rowName r ++ "\n " ++
  "Category: " ++ rowCategory r ++ "\n" ++
  "Type: " ++ rowAlcoholic r ++ "\n" ++
  "Glass: " ++ rowGlass r ++ "\n" ++
  (if rowInstructions r ≠ "" then "Instructions: " ++ rowInstructions r ++ "\n" else "") ++
  "Ingredients:\n"

/-- The line emitted for the ingredient at index i of a parsed new-shape
ingredient list (lines 152 to 157 of data_processor.py).  The measure is
attached when the aligned measure exists, is truthy, and does not strip to
the None token; note the truthiness test does not strip the measure. -/
def newMeasureLine (ms : List String) (i : Nat) (ing : String) : String :=
  if ing ≠ "" ∧ pyStrip ing ≠ "" ∧ pyStrip ing ≠ "None" then
    match ms.get? i with
    | some m =>
      if m ≠ "" ∧ pyStrip m ≠ "None" then "- " ++ m ++ " " ++ ing ++ "\n"
      else "- " ++ ing ++ "\n"
    | none => "- " ++ ing ++ "\n"
  else ""

/-- All ingredient lines of the new-shape branch, in list order. -/
def newLines (ings ms : List String) : String :=
  String.join ((ings.enum).map (fun p => newMeasureLine ms p.1 p.2))

/-- The line emitted for one legacy slot (lines 165 to 172 of
data_processor.py): here the measure is attached only when it also strips
to something nonempty. -/
def legacyLine (o mo : Option String) : String :=
  match o with
  | none => ""
  | some ing =>
    if ing ≠ "" ∧ pyStrip ing ≠ "" ∧ pyStrip ing ≠ "nan" then
      match mo with
      | some m =>
        if m ≠ "" ∧ pyStrip m ≠ "" ∧ pyStrip m ≠ "nan" then "- " ++ m ++ " " ++ ing ++ "\n"
        else "- " ++ ing ++ "\n"
      | none => "- " ++ ing ++ "\n"
    else ""

/-- All ingredient lines of the legacy branch, scanning the fifteen slots. -/
def legacyLines (ings ms : List String) : String :=
  String.join ((List.range 15).map (fun i => legacyLine (ings.get? i) (ms.get? i)))

/-- The ingredient section of the recipe.  In the new-shape branch one
try block covers parsing of both fields and the combine loop, so a parse
failure of either literal falls back to a single line holding the raw
ingredients field (line 161 of data_processor.py). -/
def recipeIngredientSection (parse : String → Option (List String)) : Row → String
  | Row.newShape _ _ _ _ _ ingr ms =>
    if ingr ≠ "" then
      match (if startsWithBracket ingr then parse ingr else some [ingr]) with
      | none => "- " ++ ingr ++ "\n"
      | some ings =>
        match (if ms ≠ "" then (if startsWithBracket ms then parse ms else some [ms]) else some []) with
        | none => "- " ++ ingr ++ "\n"
        | some msl => newLines ings msl
    else legacyLines [] []
  | Row.legacy _ _ _ _ _ ings ms => legacyLines ings ms

/-- create_recipe_text: header followed by the ingredient section. -/
def create_recipe_text (parse : String → Option (List String)) (r : Row) : String :=
  recipeHeader r ++ recipeIngredientSection parse r

/-! ## The mixed-preferences search handler

handle_mixed_search in src/app.py, lines 165 to 192.  The recommender is
abstract; the first component of the result is the list of
recommend_by_mixed_preferences calls the handler issued, so that the
absence of any search is visible in the model. -/

/-- One call to recommend_by_mixed_preferences, with each falsy field
replaced by none as the or-None arguments on lines 186 to 189 of app.py do. -/
structure MixedCall where
  ingredients : Option (List String)
  style : Option (List String)
  occasion : Option String
  alcoholic_preference : Option String
  limit : Nat
deriving DecidableEq

/-- handle_mixed_search: the search runs only when at least one of the four
signals is truthy and the button was pressed. -/
def handle_mixed_search {β : Type} (recommend : MixedCall → List β)
    (ingredients styles : List String) (occasion alcoholic_pref : String)
    (button : Bool) : List MixedCall × List β :=
  if ingredients ≠ [] ∨ styles ≠ [] ∨ occasion ≠ "" ∨ alcoholic_pref ≠ "" then
    if button then
      let call : MixedCall :=
        ⟨if ingredients = [] then none else some ingredients,
         if styles = [] then none else some styles,
         if occasion = "" then none else some occasion,
         if alcoholic_pref = "" then none else some alcoholic_pref,
         10⟩
      ([call], recommend call)
    else ([], [])
  else ([], [])

/-! ## The ingestion pipeline: store_cocktails and process_and_store

Lines 181 to 246 of data_processor.py, against a transactional store:
psycopg2 connections from DatabaseSetup.get_connection start with
autocommit off, so the DELETE and every INSERT live in one transaction
that becomes visible only at connection.commit, and connection.rollback
discards all of it.  A FailPoint injects the failure scenarios: the store
unreachable (get_connection returns None after printing, so cursor()
raises and the except handler itself raises AttributeError from
None.rollback), the embed call raising, the i-th INSERT raising, or the
commit raising; in the last three the except handler prints, rolls the
transaction back, and the function returns normally. -/

/-- One stored row of the cocktails table, with the embedding type kept
abstract. -/
structure StoredCocktail (α : Type) where
  name : String
  ingredients : String
  recipe : String
  glass : String
  category : String
  alcoholic : String
  embedding : α
deriving DecidableEq

/-- The visible (committed) state of the cocktails table. -/
structure DB (α : Type) where
  rows : List (StoredCocktail α)
deriving DecidableEq

/-- Pipeline events, in execution order: the corpus DELETE, the single
batch embed call over n texts, the INSERT of row i, and the transaction
end. -/
inductive Event
  | clear
  | embedBatch (n : Nat)
  | insertRow (i : Nat)
  | commit
  | rollback
deriving DecidableEq

/-- The Python-level outcome of a call: a normal return or an uncaught
exception. -/
inductive PyResult
  | ok
  | exn (msg : String)
deriving DecidableEq

/-- Final database state, trace of pipeline events, and call result. -/
structure Outcome (α : Type) where
  db : DB α
  trace : List Event
  result : PyResult
deriving DecidableEq

/-- The injected failure scenario for one run. -/
inductive FailPoint
  | noFail
  | connectFail
  | embedFail
  | insertFail (i : Nat)
  | commitFail
deriving DecidableEq

/-- A row of the cleaned dataframe: the source row together with its
combined_text column. -/
structure ProcRow where
  row : Row
  combined_text : String
deriving DecidableEq

/-- The stored row built for one dataframe row inside the insert loop
(lines 196 to 217 of data_processor.py). -/
def mkStored {α : Type} (parse : String → Option (List String)) (pr : ProcRow) (emb : α) :
    StoredCocktail α :=
  ⟨rowName pr.row, get_ingredents_list parse pr.row, create_recipe_text parse pr.row,
   rowGlass pr.row, rowCategory pr.row, rowAlcoholic pr.row, emb⟩

/-- The failure-free run of store_cocktails: DELETE, one batch embed call,
one INSERT per row in order, then commit; the committed table holds
exactly the new rows. -/
def store_success {α : Type} (embedOne : String → α) (parse : String → Option (List String))
    (df : List ProcRow) : Outcome α :=
  ⟨⟨(df.zip (df.map (fun p => embedOne p.combined_text))).map (fun p => mkStored parse p.1 p.2)⟩,
   Event.clear :: Event.embedBatch df.length ::
     (((List.range df.length).map Event.insertRow) ++ [Event.commit]),
   PyResult.ok⟩

/-- store_cocktails under an injected failure point.  Every failure after
the connection leaves the committed table untouched (the open transaction
is rolled back) and returns normally, the exception having been caught and
printed; only the unreachable-store case escapes, as the AttributeError
raised inside the except handler by None.rollback. -/
def store_cocktails {α : Type} (embedOne : String → α) (parse : String → Option (List String))
    (fail : FailPoint) (df : List ProcRow) (db : DB α) : Outcome α :=
  match fail with
  | FailPoint.connectFail => ⟨db, [], PyResult.exn "AttributeError"⟩
  | FailPoint.embedFail => ⟨db, [Event.clear, Event.rollback], PyResult.ok⟩
  | FailPoint.insertFail i =>
    if i < df.length then
      ⟨db,
       Event.clear :: Event.embedBatch df.length ::
         (((List.range i).map Event.insertRow) ++ [Event.rollback]),
       PyResult.ok⟩
    else store_success embedOne parse df
  | FailPoint.commitFail =>
    ⟨db,
     Event.clear :: Event.embedBatch df.length ::
       (((List.range df.length).map Event.insertRow) ++ [Event.rollback]),
     PyResult.ok⟩
  | FailPoint.noFail => store_success embedOne parse df

/-- De-duplication by drink name keeping the first occurrence, as
drop_duplicates on line 37 of data_processor.py. -/
def dedupByNameGo (seen : List String) : List Row → List Row
  | [] => []
  | r :: rs =>
    if seen.contains (rowName r) then dedupByNameGo seen rs
    else r :: dedupByNameGo (rowName r :: seen) rs

/-- Corpus-level de-duplication by name. -/
def dedupByName (rows : List Row) : List Row :=
  dedupByNameGo [] rows

/-- clean_data: de-duplicate by name, then attach the combined_text column
to each remaining row. -/
def clean_data (rows : List Row) : List ProcRow :=
  (dedupByName rows).map (fun r => ⟨r, combined_text r⟩)

/-- process_and_store (lines 235 to 246 of data_processor.py).  The loaded
argument is the outcome of load_data: none when reading the file raised
and load_data returned None, in which case the function returns at once,
touching no database state. -/
def process_and_store {α : Type} (embedOne : String → α) (parse : String → Option (List String))
    (fail : FailPoint) (loaded : Option (List Row)) (db : DB α) : Outcome α :=
  match loaded with
  | none => ⟨db, [], PyResult.ok⟩
  | some rows => store_cocktails embedOne parse fail (clean_data rows) db

/-! ## Concrete exemplar values used in closed theorems -/

/-- A concrete new-shape processed row. -/
def exProcRow : ProcRow :=
  ⟨Row.newShape "Margarita" "" "" "" "" "" "", "Margarita"⟩

/-- A concrete empty table over natural-number embeddings. -/
def exDB : DB Nat :=
  ⟨[]⟩

/-- A concrete embedder over natural-number embeddings. -/
def exEmbed : String → Nat :=
  fun _ => 0

/-- A concrete new-shape row whose combined text is Gin Fizz Cocktail. -/
def exRow7 : Row :=
  Row.newShape "Gin Fizz" "Cocktail" "" "" "" "" ""

/-- Predicate selecting the batch-embed event. -/
def isEmbedEvent : Event → Bool
  | Event.embedBatch _ => true
  | _ => false

/-- Predicate selecting the corpus-clear event. -/
def isClearEvent : Event → Bool
  | Event.clear => true
  | _ => false

/-- Predicate selecting an insert event. -/
def isInsertEvent : Event → Bool
  | Event.insertRow _ => true
  | _ => false

/-! ## Lemmas about the whitespace machinery -/

/-- Unfolding equation for noAdjWS on two or more elements. -/
theorem noAdjWS_cons_cons (a b : Char) (l : List Char) :
    noAdjWS (a :: b :: l) = (!(isWS a && isWS b) && noAdjWS (b :: l)) := rfl

/-- Every whitespace character surviving the collapse is a plain space. -/
theorem collapseWS_ws_mem :
    ∀ (l : List Char) (c : Char), c ∈ collapseWS l → isWS c = true → c = ' ' := by
  intro l
  induction l with
  | nil => intro c hc; simp [collapseWS] at hc
  | cons a tl ih =>
    intro c hc hws
    match tl with
    | [] =>
      by_cases ha : isWS a = true
      · simp [collapseWS, ha] at hc; simp [hc]
      · simp [collapseWS, ha] at hc; rw [hc] at hws; simp [hws] at ha
    | b :: rest =>
      by_cases hab : (isWS a && isWS b) = true
      · simp only [collapseWS, hab, if_true] at hc
        exact ih c hc hws
      · simp only [collapseWS, hab, if_false, Bool.false_eq_true, List.mem_cons] at hc
        rcases hc with hc | hc
        · by_cases ha : isWS a = true
          · simp only [ha, if_true] at hc; exact hc
          · simp only [ha, if_false, Bool.false_eq_true] at hc
            rw [hc] at hws; simp [hws] at ha
        · exact ih c hc hws

/-- Collapsing a list whose head is not whitespace keeps that head. -/
theorem collapseWS_cons_not_ws (b : Char) (rest : List Char) (h : isWS b = false) :
    ∃ t, collapseWS (b :: rest) = b :: t := by
  match rest with
  | [] => exact ⟨[], by simp [collapseWS, h]⟩
  | c :: r => exact ⟨collapseWS (c :: r), by simp [collapseWS, h]⟩

/-- The collapse leaves no two adjacent whitespace characters. -/
theorem noAdjWS_collapseWS : ∀ l : List Char, noAdjWS (collapseWS l) = true := by
  intro l
  induction l with
  | nil => rfl
  | cons a tl ih =>
    match tl with
    | [] =>
      by_cases ha : isWS a = true
      · simp [collapseWS, ha, noAdjWS]
      · simp [collapseWS, ha, noAdjWS]
    | b :: rest =>
      by_cases hab : (isWS a && isWS b) = true
      · simpa only [collapseWS, hab, if_true] using ih
      · simp only [collapseWS, hab, if_false, Bool.false_eq_true]
        by_cases hb : isWS b = true
        · have ha : isWS a = false := by
            cases hA : isWS a
            · rfl
            · rw [hA, hb] at hab; simp at hab
          simp only [ha, if_false, Bool.false_eq_true]
          cases hL : collapseWS (b :: rest) with
          | nil => rfl
          | cons y t =>
            rw [noAdjWS_cons_cons]
            rw [hL] at ih
            simp [ih, ha]
        · obtain ⟨t, ht⟩ := collapseWS_cons_not_ws b rest (by simpa using hb)
          rw [ht, noAdjWS_cons_cons]
          rw [ht] at ih
          simp [ih, hb]

/-- A list with single spaces only and no adjacent whitespace is a fixed
point of the collapse. -/
theorem collapseWS_eq_self :
    ∀ l : List Char, (∀ c ∈ l, isWS c = true → c = ' ') → noAdjWS l = true →
      collapseWS l = l := by
  intro l
  induction l with
  | nil => intro _ _; rfl
  | cons a tl ih =>
    intro hmem hadj
    match tl with
    | [] =>
      by_cases ha : isWS a = true
      · have : a = ' ' := hmem a (by simp) ha
        simp [collapseWS, ha, this]
      · simp [collapseWS, ha]
    | b :: rest =>
      rw [noAdjWS_cons_cons] at hadj
      have hab : (isWS a && isWS b) = false := by
        cases hA : (isWS a && isWS b)
        · rfl
        · rw [hA] at hadj; simp at hadj
      simp only [collapseWS, hab, if_false, Bool.false_eq_true]
      have htl : collapseWS (b :: rest) = b :: rest := by
        refine ih (fun c hc hw => hmem c (by simp [hc]) hw) ?_
        have := hadj
        rw [hab] at this
        simpa using this
      rw [htl]
      by_cases ha : isWS a = true
      · have : a = ' ' := hmem a (by simp) ha
        simp [ha, this]
      · simp [ha]

/-- The head surviving a leading-whitespace drop is not whitespace. -/
theorem head_lstrip_not_ws :
    ∀ (l : List Char) (c : Char), (l.dropWhile isWS).head? = some c → isWS c = false := by
  intro l
  induction l with
  | nil => intro c hc; simp [List.dropWhile] at hc
  | cons a tl ih =>
    intro c hc
    by_cases ha : isWS a = true
    · rw [List.dropWhile_cons_of_pos ha] at hc
      exact ih c hc
    · rw [List.dropWhile_cons_of_neg (by simp [ha])] at hc
      simp only [List.head?_cons, Option.some.injEq] at hc
      rw [← hc]; simpa using ha

/-- A list whose head is not whitespace is unchanged by the leading drop. -/
theorem lstrip_eq_self (l : List Char)
    (h : ∀ c, l.head? = some c → isWS c = false) : l.dropWhile isWS = l := by
  match l with
  | [] => rfl
  | a :: tl =>
    have := h a (by simp)
    rw [List.dropWhile_cons_of_neg (by simp [this])]

/-- noAdjWS restricts to the tail. -/
theorem noAdjWS_tail (a : Char) (l : List Char)
    (h : noAdjWS (a :: l) = true) : noAdjWS l = true := by
  match l with
  | [] => rfl
  | b :: t =>
    rw [noAdjWS_cons_cons] at h
    simp only [Bool.and_eq_true] at h
    exact h.2

/-- The leading drop preserves noAdjWS. -/
theorem noAdjWS_lstrip :
    ∀ l : List Char, noAdjWS l = true → noAdjWS (l.dropWhile isWS) = true := by
  intro l
  induction l with
  | nil => intro _; rfl
  | cons a tl ih =>
    intro h
    by_cases ha : isWS a = true
    · rw [List.dropWhile_cons_of_pos ha]
      exact ih (noAdjWS_tail a tl h)
    · rw [List.dropWhile_cons_of_neg (by simp [ha])]
      exact h

/-- Members of the leading drop are members of the list. -/
theorem mem_lstrip :
    ∀ (l : List Char) (c : Char), c ∈ l.dropWhile isWS → c ∈ l := by
  intro l
  induction l with
  | nil => intro c hc; simp [List.dropWhile] at hc
  | cons a tl ih =>
    intro c hc
    by_cases ha : isWS a = true
    · rw [List.dropWhile_cons_of_pos ha] at hc
      exact List.mem_cons_of_mem a (ih c hc)
    · rw [List.dropWhile_cons_of_neg (by simp [ha])] at hc
      exact hc

/-- The trailing strip keeps the head of the list. -/
theorem rstripWS_head :
    ∀ (l : List Char) (c : Char), (rstripWS l).head? = some c → l.head? = some c := by
  intro l c h
  match l with
  | [] => simp [rstripWS] at h
  | a :: tl =>
    cases hr : rstripWS tl with
    | nil =>
      rw [rstripWS, hr] at h
      by_cases ha : isWS a = true
      · simp [ha] at h
      · simp [ha] at h
        simp [h]
    | cons x xs =>
      rw [rstripWS, hr] at h
      simp only [List.head?_cons, Option.some.injEq] at h
      simp [h]

/-- The last element surviving the trailing strip is not whitespace. -/
theorem lastElem_rstripWS_not_ws :
    ∀ (l : List Char) (c : Char), lastElem (rstripWS l) = some c → isWS c = false := by
  intro l
  induction l with
  | nil => intro c h; simp [rstripWS, lastElem] at h
  | cons a tl ih =>
    intro c h
    cases hr : rstripWS tl with
    | nil =>
      rw [rstripWS, hr] at h
      by_cases ha : isWS a = true
      · simp [ha, lastElem] at h
      · simp only [ha, if_false, Bool.false_eq_true, lastElem, Option.some.injEq] at h
        rw [← h]; simpa using ha
    | cons x xs =>
      rw [rstripWS, hr] at h
      have : lastElem (a :: x :: xs) = lastElem (x :: xs) := rfl
      rw [this, ← hr] at h
      exact ih c h

/-- A list whose last element is not whitespace is unchanged by the
trailing strip. -/
theorem rstripWS_eq_self :
    ∀ l : List Char, (∀ c, lastElem l = some c → isWS c = false) → rstripWS l = l := by
  intro l
  induction l with
  | nil => intro _; rfl
  | cons a tl ih =>
    intro h
    match tl with
    | [] =>
      have := h a rfl
      simp [rstripWS, this]
    | b :: t =>
      have htl : rstripWS (b :: t) = b :: t := by
        refine ih ?_
        intro c hc
        exact h c (by rw [← hc]; rfl)
      rw [rstripWS, htl]

/-- The trailing strip preserves noAdjWS. -/
theorem noAdjWS_rstripWS :
    ∀ l : List Char, noAdjWS l = true → noAdjWS (rstripWS l) = true := by
  intro l
  induction l with
  | nil => intro _; rfl
  | cons a tl ih =>
    intro h
    cases hr : rstripWS tl with
    | nil =>
      rw [rstripWS, hr]
      by_cases ha : isWS a = true
      · simp [ha, noAdjWS]
      · simp [ha, noAdjWS]
    | cons x xs =>
      rw [rstripWS, hr]
      have htail : noAdjWS (x :: xs) = true := by
        rw [← hr]; exact ih (noAdjWS_tail a tl h)
      rw [noAdjWS_cons_cons]
      have hx : tl.head? = some x := rstripWS_head tl x (by rw [hr]; rfl)
      match tl, hx with
      | b :: t2, hx =>
        simp only [List.head?_cons, Option.some.injEq] at hx
        rw [noAdjWS_cons_cons] at h
        simp only [Bool.and_eq_true] at h
        subst hx
        simp [htail, h.1]

/-- Members of the trailing strip are members of the list. -/
theorem mem_rstripWS :
    ∀ (l : List Char) (c : Char), c ∈ rstripWS l → c ∈ l := by
  intro l
  induction l with
  | nil => intro c hc; simp [rstripWS] at hc
  | cons a tl ih =>
    intro c hc
    cases hr : rstripWS tl with
    | nil =>
      rw [rstripWS, hr] at hc
      by_cases ha : isWS a = true
      · simp [ha] at hc
      · simp [ha] at hc
        simp [hc]
    | cons x xs =>
      rw [rstripWS, hr] at hc
      rcases List.mem_cons.mp hc with hc | hc
      · simp [hc]
      · exact List.mem_cons_of_mem a (ih c (by rw [hr]; exact hc))

/-- The last element of a list ending in a is a. -/
theorem lastElem_append_single {α : Type} :
    ∀ (l : List α) (a : α), lastElem (l ++ [a]) = some a := by
  intro l a
  induction l with
  | nil => rfl
  | cons x tl ih =>
    match tl with
    | [] => rfl
    | y :: t2 =>
      have : (x :: y :: t2) ++ [a] = x :: ((y :: t2) ++ [a]) := rfl
      rw [this]
      have step : lastElem (x :: ((y :: t2) ++ [a])) = lastElem ((y :: t2) ++ [a]) := rfl
      rw [step]
      exact ih

/-- The head surviving the full strip is not whitespace. -/
theorem stripWS_head_not_ws (l : List Char) (c : Char)
    (h : (stripWS l).head? = some c) : isWS c = false :=
  head_lstrip_not_ws l c (rstripWS_head _ c h)

/-- The last element surviving the full strip is not whitespace. -/
theorem stripWS_last_not_ws (l : List Char) (c : Char)
    (h : lastElem (stripWS l) = some c) : isWS c = false :=
  lastElem_rstripWS_not_ws _ c h

/-- The full strip preserves noAdjWS. -/
theorem noAdjWS_stripWS (l : List Char) (h : noAdjWS l = true) :
    noAdjWS (stripWS l) = true :=
  noAdjWS_rstripWS _ (noAdjWS_lstrip _ h)

/-- Members of the full strip are members of the list. -/
theorem mem_stripWS (l : List Char) (c : Char) (h : c ∈ stripWS l) : c ∈ l :=
  mem_lstrip _ _ (mem_rstripWS _ _ h)

/-- The full strip is idempotent. -/
theorem stripWS_idem (l : List Char) : stripWS (stripWS l) = stripWS l := by
  have h1 : (stripWS l).dropWhile isWS = stripWS l :=
    lstrip_eq_self _ (fun c hc => stripWS_head_not_ws l c hc)
  show rstripWS ((stripWS l).dropWhile isWS) = stripWS l
  rw [h1]
  exact rstripWS_eq_self _ (fun c hc => stripWS_last_not_ws l c hc)

/-- Python str.strip is idempotent. -/
theorem pyStrip_idem (s : String) : pyStrip (pyStrip s) = pyStrip s :=
  congrArg String.mk (stripWS_idem s.data)

/-- The whitespace cleaning of clean_data is idempotent. -/
theorem cleanWS_idem (s : String) : cleanWS (cleanWS s) = cleanWS s := by
  have hsp : ∀ c ∈ stripWS (collapseWS s.data), isWS c = true → c = ' ' :=
    fun c hc hw => collapseWS_ws_mem _ c (mem_stripWS _ c hc) hw
  have hadj : noAdjWS (stripWS (collapseWS s.data)) = true :=
    noAdjWS_stripWS _ (noAdjWS_collapseWS _)
  have hcol : collapseWS (stripWS (collapseWS s.data)) = stripWS (collapseWS s.data) :=
    collapseWS_eq_self _ hsp hadj
  show String.mk (stripWS (collapseWS (stripWS (collapseWS s.data)))) = _
  rw [hcol, stripWS_idem]
  rfl

/-- A string starting with the bracket is nonempty. -/
theorem ne_empty_of_bracket (s : String) (h : startsWithBracket s = true) : s ≠ "" := by
  intro he
  rw [he] at h
  simp [startsWithBracket] at h

/-- A string starting with the bracket strips to a nonempty string. -/
theorem pyStrip_ne_empty_of_bracket (s : String) (h : startsWithBracket s = true) :
    pyStrip s ≠ "" := by
  intro he
  have hdata : stripWS s.data = [] := by
    have h2 : (String.mk (stripWS s.data)).data = ("" : String).data := by
      rw [← he]; rfl
    exact h2
  cases hs : s.data with
  | nil => rw [startsWithBracket, hs] at h; simp at h
  | cons c t =>
    rw [startsWithBracket, hs] at h
    have hc : c = '[' := by simpa using h
    have hnws : isWS c = false := by rw [hc]; rfl
    have hdrop : (c :: t).dropWhile isWS = c :: t := by
      rw [List.dropWhile_cons_of_neg (by simp [hnws])]
    rw [hs, stripWS, hdrop] at hdata
    cases hr : rstripWS t with
    | nil => rw [rstripWS, hr, hnws] at hdata; simp at hdata
    | cons x xs => rw [rstripWS, hr] at hdata; simp at hdata

/-! ## Claim theorems -/

/-- C8: a Mixed query request in which none of the ingredients, style,
occasion, and alcoholic-preference signals is populated executes no
search: handle_mixed_search issues no recommend_by_mixed_preferences call
(first component empty) and returns no results, whatever the button state. -/
theorem c8_mixed_empty_no_search {β : Type} (recommend : MixedCall → List β) (button : Bool) :
    handle_mixed_search recommend [] [] "" "" button = ([], []) := by
  simp [handle_mixed_search]

/-- C10: when load_data fails (returns None), process_and_store returns at
once: the stored corpus is unchanged, no pipeline event is issued, and the
call returns normally, for every failure scenario of the downstream store. -/
theorem c10_load_failure_no_db_ops {α : Type} (embedOne : String → α)
    (parse : String → Option (List String)) (fail : FailPoint) (db : DB α) :
    process_and_store embedOne parse fail none db = ⟨db, [], PyResult.ok⟩ := rfl

/-- C2 evaluation (code bug): a run whose first INSERT raises returns
normally, with the very same result value as a fully successful run, so
the caller cannot distinguish a failed ingestion from a successful one at
the interface boundary; only the unreachable-store run escapes, and then
as an accidental AttributeError raised inside the except handler by
None.rollback, not as the original connectivity error. -/
theorem c2_failure_swallowed_eval :
    (store_cocktails exEmbed literalEvalList (FailPoint.insertFail 0) [exProcRow] exDB).result =
      PyResult.ok ∧
    (store_cocktails exEmbed literalEvalList FailPoint.noFail [exProcRow] exDB).result =
      PyResult.ok ∧
    (store_cocktails exEmbed literalEvalList (FailPoint.insertFail 0) [exProcRow] exDB).result =
      (store_cocktails exEmbed literalEvalList FailPoint.noFail [exProcRow] exDB).result ∧
    (store_cocktails exEmbed literalEvalList FailPoint.connectFail [exProcRow] exDB).result =
      PyResult.exn "AttributeError" :=
  ⟨rfl, rfl, rfl, rfl⟩

/-- C1 counterexample: on a concrete one-row corpus the successful run of
store_cocktails clears the corpus at trace position 0 and issues the batch
embed call at position 1, so the embedding does not happen before the
clear as the claim states. -/
theorem c1_embed_before_clear_counterexample :
    (store_cocktails exEmbed literalEvalList FailPoint.noFail [exProcRow] exDB).trace =
      [Event.clear, Event.embedBatch 1, Event.insertRow 0, Event.commit] ∧
    ¬ ((store_cocktails exEmbed literalEvalList FailPoint.noFail [exProcRow] exDB).trace.findIdx
         isEmbedEvent <
       (store_cocktails exEmbed literalEvalList FailPoint.noFail [exProcRow] exDB).trace.findIdx
         isClearEvent) := by
  exact ⟨rfl, by decide⟩

/-- C1 amended: in every successful store_cocktails run the corpus clear
comes first, then the single batch embed call (exactly one embed event,
never row-by-row), and every insert comes after both the clear and the
embed call. -/
theorem c1_pipeline_order_amended {α : Type} (embedOne : String → α)
    (parse : String → Option (List String)) (df : List ProcRow) (db : DB α)
    (t : List Event) (ht : t = (store_cocktails embedOne parse FailPoint.noFail df db).trace) :
    t.countP isEmbedEvent = 1 ∧
    t.findIdx isClearEvent < t.findIdx isEmbedEvent ∧
    (∀ j e, t.get? j = some e → isInsertEvent e = true →
      t.findIdx isEmbedEvent < j ∧ t.findIdx isClearEvent < j) := by
  have htr : (store_cocktails embedOne parse FailPoint.noFail df db).trace =
      Event.clear :: Event.embedBatch df.length ::
        (((List.range df.length).map Event.insertRow) ++ [Event.commit]) := rfl
  rw [htr] at ht
  subst ht
  have h0 : ((List.range df.length).map Event.insertRow).countP isEmbedEvent = 0 := by
    rw [List.countP_eq_zero]
    intro e he
    obtain ⟨i, _, rfl⟩ := List.mem_map.mp he
    simp [isEmbedEvent]
  refine ⟨?_, ?_, ?_⟩
  · simp [List.countP_cons, List.countP_append, h0, isEmbedEvent]
  · simp [List.findIdx_cons, isEmbedEvent, isClearEvent]
  · intro j e hj hins
    cases j with
    | zero =>
      simp only [List.get?_cons_zero, Option.some.injEq] at hj
      rw [← hj] at hins
      simp [isInsertEvent] at hins
    | succ j1 =>
      cases j1 with
      | zero =>
        simp only [List.get?_cons_succ, List.get?_cons_zero, Option.some.injEq] at hj
        rw [← hj] at hins
        simp [isInsertEvent] at hins
      | succ j2 =>
        have he : (Event.clear :: Event.embedBatch df.length ::
            (((List.range df.length).map Event.insertRow) ++ [Event.commit])).findIdx
              isEmbedEvent = 1 := by
          simp [List.findIdx_cons, isEmbedEvent, isClearEvent]
        have hc : (Event.clear :: Event.embedBatch df.length ::
            (((List.range df.length).map Event.insertRow) ++ [Event.commit])).findIdx
              isClearEvent = 0 := by
          simp [List.findIdx_cons, isClearEvent]
        rw [he, hc]
        omega

/-- Witness for the amended C1 theorem at a concrete one-row corpus: the
insert found at trace position 2 lies after the embed position and after
the clear position. -/
theorem c1_pipeline_order_amended_witness :
    (store_cocktails exEmbed literalEvalList FailPoint.noFail [exProcRow] exDB).trace.findIdx
      isEmbedEvent < 2 ∧
    (store_cocktails exEmbed literalEvalList FailPoint.noFail [exProcRow] exDB).trace.findIdx
      isClearEvent < 2 := by
  have h := c1_pipeline_order_amended exEmbed literalEvalList [exProcRow] exDB
    (store_cocktails exEmbed literalEvalList FailPoint.noFail [exProcRow] exDB).trace rfl
  exact h.2.2 2 (Event.insertRow 0) (by decide) (by decide)

/-- C9: the corpus clear and the inserts run in one transaction committed
only at the end.  Whenever any step after the clear fails (the embed call,
the i-th insert, or the commit itself) the transaction is rolled back and
the committed corpus is exactly what it was before the call, with no
commit event in the trace; in the failure-free run the commit is the last
event and comes after every insert. -/
theorem c9_transactional_store {α : Type} (embedOne : String → α)
    (parse : String → Option (List String)) (df : List ProcRow) (db : DB α) :
    ((store_cocktails embedOne parse FailPoint.embedFail df db).db = db ∧
      Event.commit ∉ (store_cocktails embedOne parse FailPoint.embedFail df db).trace) ∧
    (∀ i, i < df.length →
      (store_cocktails embedOne parse (FailPoint.insertFail i) df db).db = db ∧
      Event.commit ∉ (store_cocktails embedOne parse (FailPoint.insertFail i) df db).trace ∧
      Event.rollback ∈ (store_cocktails embedOne parse (FailPoint.insertFail i) df db).trace) ∧
    ((store_cocktails embedOne parse FailPoint.commitFail df db).db = db ∧
      Event.commit ∉ (store_cocktails embedOne parse FailPoint.commitFail df db).trace) ∧
    (lastElem (store_cocktails embedOne parse FailPoint.noFail df db).trace = some Event.commit ∧
      ∀ j, j < df.length →
        Event.insertRow j ∈ (store_cocktails embedOne parse FailPoint.noFail df db).trace) := by
  refine ⟨⟨rfl, by simp [store_cocktails]⟩, ?_, ⟨rfl, ?_⟩, ?_, ?_⟩
  · intro i hi
    have hout : store_cocktails embedOne parse (FailPoint.insertFail i) df db =
        ⟨db, Event.clear :: Event.embedBatch df.length ::
          (((List.range i).map Event.insertRow) ++ [Event.rollback]), PyResult.ok⟩ := by
      simp only [store_cocktails, if_pos hi]
    rw [hout]
    refine ⟨rfl, ?_, ?_⟩
    · simp
    · simp
  · simp [store_cocktails]
  · have htr : (store_cocktails embedOne parse FailPoint.noFail df db).trace =
        (Event.clear :: Event.embedBatch df.length ::
          ((List.range df.length).map Event.insertRow)) ++ [Event.commit] := by
      simp [store_cocktails, store_success]
    rw [htr]
    exact lastElem_append_single _ _
  · intro j hj
    have htr : (store_cocktails embedOne parse FailPoint.noFail df db).trace =
        Event.clear :: Event.embedBatch df.length ::
          (((List.range df.length).map Event.insertRow) ++ [Event.commit]) := rfl
    rw [htr]
    apply List.mem_cons_of_mem
    apply List.mem_cons_of_mem
    apply List.mem_append_left
    exact List.mem_map.mpr ⟨j, List.mem_range.mpr hj, rfl⟩

/-- Witness for the C9 theorem at a concrete one-row corpus: a failing
first insert leaves the committed table unchanged, and the successful run
contains the insert of row 0. -/
theorem c9_transactional_store_witness :
    (store_cocktails exEmbed literalEvalList (FailPoint.insertFail 0) [exProcRow] exDB).db =
      exDB ∧
    Event.insertRow 0 ∈
      (store_cocktails exEmbed literalEvalList FailPoint.noFail [exProcRow] exDB).trace := by
  have h := c9_transactional_store exEmbed literalEvalList [exProcRow] exDB
  exact ⟨(h.2.1 0 (by decide)).1, h.2.2.2.2 0 (by decide)⟩

/-- C3 counterexample: a new-shape row whose single aligned measure is the
blank (whitespace-only) string renders the ingredient with a blank measure
token rather than without a measure: the Gin line comes out as a dash
followed by five spaces, not as the dash-space-ingredient form the claim
requires. -/
theorem c3_blank_measure_counterexample :
    create_recipe_text literalEvalList
        (Row.newShape "A" "" "" "" "" "[\"Gin\"]" "[\"   \"]") =
      "\nDrink: A\n Category: \nType: \nGlass: \nIngredients:\n-     Gin\n" ∧
    create_recipe_text literalEvalList
        (Row.newShape "A" "" "" "" "" "[\"Gin\"]" "[\"   \"]") ≠
      "\nDrink: A\n Category: \nType: \nGlass: \nIngredients:\n- Gin\n" := by
  exact ⟨by decide, by decide⟩

/-- C3 amended: for a kept ingredient of the new-shape branch, an absent
or empty aligned measure renders without a measure, but a measure that is
nonempty (even whitespace-only) and does not strip to the None token is
rendered, blank token included; the legacy branch also drops measures that
are absent or strip to nothing. -/
theorem c3_measure_rendering_amended (ms : List String) (i : Nat) (ing : String)
    (h1 : ing ≠ "") (h2 : pyStrip ing ≠ "") (h3 : pyStrip ing ≠ "None") :
    (ms.get? i = none → newMeasureLine ms i ing = "- " ++ ing ++ "\n") ∧
    (ms.get? i = some "" → newMeasureLine ms i ing = "- " ++ ing ++ "\n") ∧
    (∀ m, ms.get? i = some m → m ≠ "" → pyStrip m ≠ "None" →
      newMeasureLine ms i ing = "- " ++ m ++ " " ++ ing ++ "\n") ∧
    (∀ ing2 mo, ing2 ≠ "" → pyStrip ing2 ≠ "" → pyStrip ing2 ≠ "nan" →
      (mo = none ∨ ∃ m, mo = some m ∧ pyStrip m = "") →
      legacyLine (some ing2) mo = "- " ++ ing2 ++ "\n") := by
  refine ⟨?_, ?_, ?_, ?_⟩
  · intro h
    simp only [newMeasureLine, if_pos (And.intro h1 (And.intro h2 h3)), h]
  · intro h
    simp only [newMeasureLine, if_pos (And.intro h1 (And.intro h2 h3)), h]
    simp
  · intro m hm hm1 hm3
    simp only [newMeasureLine, if_pos (And.intro h1 (And.intro h2 h3)), hm]
    simp [hm1, hm3]
  · intro ing2 mo hg1 hg2 hg3 hmo
    rcases hmo with hmo | ⟨m, hmo, hms⟩
    · subst hmo
      simp only [legacyLine, if_pos (And.intro hg1 (And.intro hg2 hg3))]
    · subst hmo
      simp only [legacyLine, if_pos (And.intro hg1 (And.intro hg2 hg3))]
      simp [hms]

/-- Witness for the amended C3 theorem: the whitespace-only measure is
rendered with its blank token in the new-shape branch and dropped in the
legacy branch. -/
theorem c3_measure_rendering_amended_witness :
    newMeasureLine ["   "] 0 "Gin" = "-     Gin\n" ∧
    legacyLine (some "Gin") (some "   ") = "- Gin\n" := by
  have h := c3_measure_rendering_amended ["   "] 0 "Gin" (by decide) (by decide) (by decide)
  refine ⟨?_, ?_⟩
  · exact (h.2.2.1 "   " (by decide) (by decide) (by decide)).trans (by decide)
  · exact (h.2.2.2 "Gin" (some "   ") (by decide) (by decide) (by decide)
      (Or.inr ⟨"   ", rfl, by decide⟩)).trans (by decide)

/-- C4: a new-shape row whose ingredients field parses to Gin and Vermouth
and whose measures field parses to the shorter single-element list renders
the 2 oz Gin line followed by the bare Vermouth line, in ingestion order,
after the recipe header. -/
theorem c4_short_measures_rendering (parse : String → Option (List String))
    (n c a g ins ingr ms : String)
    (h1 : ingr ≠ "") (h2 : startsWithBracket ingr = true)
    (h3 : parse ingr = some ["Gin", "Vermouth"])
    (h4 : ms ≠ "") (h5 : startsWithBracket ms = true)
    (h6 : parse ms = some ["2 oz"]) :
    create_recipe_text parse (Row.newShape n c a g ins ingr ms) =
      recipeHeader (Row.newShape n c a g ins ingr ms) ++ "- 2 oz Gin\n- Vermouth\n" := by
  have hsec : recipeIngredientSection parse (Row.newShape n c a g ins ingr ms) =
      newLines ["Gin", "Vermouth"] ["2 oz"] := by
    simp only [recipeIngredientSection, if_pos h1, if_pos h4, h2, h5, if_true, h3, h6]
  rw [create_recipe_text, hsec]
  have h7 : newLines ["Gin", "Vermouth"] ["2 oz"] = "- 2 oz Gin\n- Vermouth\n" := by decide
  rw [h7]

/-- Witness for the C4 theorem at a fully concrete row parsed by the
concrete literal parser. -/
theorem c4_short_measures_rendering_witness :
    create_recipe_text literalEvalList
        (Row.newShape "Martini" "" "" "" "" "[\"Gin\", \"Vermouth\"]" "[\"2 oz\"]") =
      recipeHeader
          (Row.newShape "Martini" "" "" "" "" "[\"Gin\", \"Vermouth\"]" "[\"2 oz\"]") ++
        "- 2 oz Gin\n- Vermouth\n" :=
  c4_short_measures_rendering literalEvalList "Martini" "" "" "" ""
    "[\"Gin\", \"Vermouth\"]" "[\"2 oz\"]" (by decide) (by decide) (by decide) (by decide)
    (by decide) (by decide)

/-- C5: a new-shape ingredients field that starts with the list-literal
delimiter but fails to parse is recovered locally in both consumers: the
normalizer yields exactly the stripped raw field as a single ingredient,
and the recipe renders one line holding the raw field; both functions
return normally, so the row is kept and no error reaches the caller. -/
theorem c5_malformed_literal_fallback (parse : String → Option (List String))
    (n c a g ins ingr ms : String)
    (h1 : startsWithBracket ingr = true) (h2 : parse ingr = none) :
    get_ingredents_list_items parse (Row.newShape n c a g ins ingr ms) = [pyStrip ingr] ∧
    get_ingredents_list parse (Row.newShape n c a g ins ingr ms) = pyStrip ingr ∧
    create_recipe_text parse (Row.newShape n c a g ins ingr ms) =
      recipeHeader (Row.newShape n c a g ins ingr ms) ++ ("- " ++ ingr ++ "\n") := by
  have h0 : ingr ≠ "" := ne_empty_of_bracket ingr h1
  have hps : pyStrip ingr ≠ "" := pyStrip_ne_empty_of_bracket ingr h1
  have hitems : get_ingredents_list_items parse (Row.newShape n c a g ins ingr ms) =
      [pyStrip ingr] := by
    simp only [get_ingredents_list_items, if_pos h0, h1, if_true, h2, if_pos hps]
  refine ⟨hitems, ?_, ?_⟩
  · rw [get_ingredents_list, hitems]
    rfl
  · rw [create_recipe_text]
    have hsec : recipeIngredientSection parse (Row.newShape n c a g ins ingr ms) =
        "- " ++ ingr ++ "\n" := by
      simp only [recipeIngredientSection, if_pos h0, h1, if_true, h2]
    rw [hsec]

/-- Witness for the C5 theorem at a concrete malformed literal (an
unterminated bracketed string), parsed by the concrete literal parser. -/
theorem c5_malformed_literal_fallback_witness :
    get_ingredents_list literalEvalList
        (Row.newShape "A" "" "" "" "" "[\"Gin\"" "") = "[\"Gin\"" ∧
    create_recipe_text literalEvalList
        (Row.newShape "A" "" "" "" "" "[\"Gin\"" "") =
      "\nDrink: A\n Category: \nType: \nGlass: \nIngredients:\n- [\"Gin\"\n" := by
  have h := c5_malformed_literal_fallback literalEvalList "A" "" "" "" "" "[\"Gin\"" ""
    (by decide) (by decide)
  exact ⟨h.2.1.trans (by decide), h.2.2.trans (by decide)⟩

/-- C6 counterexample: the legacy branch excludes only the nan sentinel,
so a legacy slot holding the string None survives into the output, even
though the claim states the None sentinel is excluded in either shape. -/
theorem c6_sentinel_counterexample :
    get_ingredents_list_items literalEvalList
        (Row.legacy "X" "" "" "" "" ["None"] []) = ["None"] ∧
    get_ingredents_list literalEvalList (Row.legacy "X" "" "" "" "" ["None"] []) = "None" :=
  ⟨by decide, by decide⟩

/-- C6 amended: the normalizer output never exceeds the fifteen legacy
slots nor the parsed literal list length for new-shape rows, and blank
values are excluded in both shapes, but the excluded sentinel is shape
specific: nan for legacy rows and None for new-shape rows. -/
theorem c6_bounds_amended (parse : String → Option (List String)) :
    (∀ d c a g ins ingrs ms,
      (get_ingredents_list_items parse (Row.legacy d c a g ins ingrs ms)).length ≤ 15 ∧
      ∀ s ∈ get_ingredents_list_items parse (Row.legacy d c a g ins ingrs ms),
        s ≠ "" ∧ pyStrip s = s ∧ s ≠ "nan") ∧
    (∀ n c a g ins f ms l, startsWithBracket f = true → parse f = some l →
      (get_ingredents_list_items parse (Row.newShape n c a g ins f ms)).length ≤ l.length ∧
      ∀ s ∈ get_ingredents_list_items parse (Row.newShape n c a g ins f ms),
        s ≠ "" ∧ pyStrip s = s ∧ s ≠ "None") := by
  constructor
  · intro d c a g ins ingrs ms
    constructor
    · calc ((List.range 15).filterMap (fun i => okLegacy (ingrs.get? i))).length
          ≤ (List.range 15).length := List.length_filterMap_le _ _
        _ = 15 := by simp
    · intro s hs
      obtain ⟨i, _, hi⟩ := List.mem_filterMap.mp hs
      cases hg : ingrs.get? i with
      | none => rw [hg] at hi; simp [okLegacy] at hi
      | some t =>
        rw [hg] at hi
        simp only [okLegacy] at hi
        by_cases hc : t ≠ "" ∧ pyStrip t ≠ "" ∧ pyStrip t ≠ "nan"
        · rw [if_pos hc] at hi
          have hst : s = pyStrip t := by simpa using hi.symm
          subst hst
          exact ⟨hc.2.1, pyStrip_idem t, hc.2.2⟩
        · rw [if_neg hc] at hi; simp at hi
  · intro n c a g ins f ms l hb hp
    have h0 : f ≠ "" := ne_empty_of_bracket f hb
    have hitems : get_ingredents_list_items parse (Row.newShape n c a g ins f ms) =
        l.filterMap okNew := by
      simp only [get_ingredents_list_items, if_pos h0, hb, if_true, hp]
    rw [hitems]
    constructor
    · exact List.length_filterMap_le _ _
    · intro s hs
      obtain ⟨t, _, ht⟩ := List.mem_filterMap.mp hs
      rw [okNew.eq_def] at ht
      by_cases hc : t ≠ "" ∧ pyStrip t ≠ "" ∧ pyStrip t ≠ "None"
      · rw [if_pos hc] at ht
        have hst : s = pyStrip t := by simpa using ht.symm
        subst hst
        exact ⟨hc.2.1, pyStrip_idem t, hc.2.2⟩
      · rw [if_neg hc] at ht; simp at ht

/-- Witness for the amended C6 theorem at concrete rows of both shapes,
parsed by the concrete literal parser. -/
theorem c6_bounds_amended_witness :
    (get_ingredents_list_items literalEvalList
      (Row.legacy "X" "" "" "" "" ["Gin", "  ", "nan"] [])).length ≤ 15 ∧
    (get_ingredents_list_items literalEvalList
      (Row.newShape "A" "" "" "" "" "[\"Gin\", \"None\"]" "")).length ≤ 2 := by
  have h := c6_bounds_amended literalEvalList
  refine ⟨(h.1 "X" "" "" "" "" ["Gin", "  ", "nan"] []).1, ?_⟩
  exact (h.2 "A" "" "" "" "" "[\"Gin\", \"None\"]" "" ["Gin", "None"]
    (by decide) (by decide)).1

/-- C7: combined_text is a pure function of the row, so two compositions
from the same row are identical; moreover re-cleaning it leaves it
unchanged (no whitespace drift), no two adjacent whitespace characters
remain, any remaining whitespace character is a single plain space, and
there is no leading or trailing whitespace. -/
theorem c7_combined_text_idempotent (r : Row) :
    cleanWS (combined_text r) = combined_text r ∧
    noAdjWS (combined_text r).data = true ∧
    (∀ c ∈ (combined_text r).data, isWS c = true → c = ' ') ∧
    (∀ c, (combined_text r).data.head? = some c → isWS c = false) ∧
    (∀ c, lastElem (combined_text r).data = some c → isWS c = false) := by
  refine ⟨cleanWS_idem _, ?_, ?_, ?_, ?_⟩
  · show noAdjWS (stripWS (collapseWS (rawCombined r).data)) = true
    exact noAdjWS_stripWS _ (noAdjWS_collapseWS _)
  · intro c hc hw
    exact collapseWS_ws_mem _ c (mem_stripWS _ c hc) hw
  · intro c hc
    exact stripWS_head_not_ws _ c hc
  · intro c hc
    exact stripWS_last_not_ws _ c hc

/-- Witness for the C7 theorem at a concrete row: its combined text is a
fixed point of the cleaning and starts with a non-whitespace character. -/
theorem c7_combined_text_idempotent_witness :
    cleanWS (combined_text exRow7) = combined_text exRow7 ∧ isWS 'G' = false := by
  have h := c7_combined_text_idempotent exRow7
  exact ⟨h.1, h.2.2.2.1 'G' (by decide)⟩
